import Mathlib

/-!
Verification of the text-cleanup pipeline of the Screen Text Analyzer
(`src/components/ScreenReader.tsx`).

Strings are modelled as `List Char`.  Every JavaScript regex pass of the
pipeline is embedded as an explicit scanning function; scans whose natural
recursion is not structural take a fuel argument (initialised to the length
of the scanned list, which always suffices; the fuel-exhausted branch is
unreachable for the initial fuel and returns the input unchanged) so that
all definitions reduce in the kernel.

Confidence scores are modelled as rationals and bounding-box coordinates as
integers (the OCR engine delivers integer pixel coordinates).
-/

namespace STA

/-- The double-quote character `"`. -/
def qChar : Char := Char.ofNat 34

/-- The apostrophe character. -/
def aChar : Char := Char.ofNat 39

/-- The ECMAScript `\s` class: WhiteSpace and LineTerminator characters
(TAB, LF, VT, FF, CR, SP, NBSP, OGHAM, U+2000–U+200A, LS, PS, NNBSP, MMSP,
IDSP, BOM). -/
def jsSpaceB (c : Char) : Bool :=
  (decide (9 ≤ c.toNat) && decide (c.toNat ≤ 13)) ||
  ([32, 160, 5760, 8232, 8233, 8239, 8287, 12288, 65279].contains c.toNat) ||
  (decide (8192 ≤ c.toNat) && decide (c.toNat ≤ 8202))

/-- ASCII letter (`[a-zA-Z]`). -/
def isAsciiAlphaB (c : Char) : Bool :=
  (decide ('a' ≤ c) && decide (c ≤ 'z')) || (decide ('A' ≤ c) && decide (c ≤ 'Z'))

/-- ASCII digit (`[0-9]`). -/
def isDigitB (c : Char) : Bool :=
  decide ('0' ≤ c) && decide (c ≤ '9')

/-- ASCII lowercase letter (`[a-z]`). -/
def isLowerB (c : Char) : Bool :=
  decide ('a' ≤ c) && decide (c ≤ 'z')

/-- ASCII uppercase letter (`[A-Z]`). -/
def isUpperB (c : Char) : Bool :=
  decide ('A' ≤ c) && decide (c ≤ 'Z')

/-- ASCII upcasing of a lowercase letter, as performed by
`m => m.toUpperCase()` on an `[a-z]` match. -/
def upChar (c : Char) : Char :=
  if isLowerB c then Char.ofNat (c.toNat - 32) else c

/-- ASCII downcasing, used to model the case-insensitive (`/i`) regex test. -/
def lowChar (c : Char) : Char :=
  if isUpperB c then Char.ofNat (c.toNat + 32) else c

/-- JavaScript `String.prototype.trim` (strips `\s` on both ends). -/
def trimL (l : List Char) : List Char :=
  ((l.dropWhile jsSpaceB).reverse.dropWhile jsSpaceB).reverse

/-- JavaScript `Array.prototype.join(sep)`. -/
def joinSep (sep : List Char) : List (List Char) → List Char
  | [] => []
  | [s] => s
  | s :: s2 :: rest => s ++ sep ++ joinSep sep (s2 :: rest)

/-- The pass `.replace(/\s+/g, ' ')`: every maximal run of `\s` characters
becomes a single space.  The boolean argument records whether the previous
character belonged to a whitespace run. -/
def collapseWsAux : Bool → List Char → List Char
  | _, [] => []
  | inRun, c :: tl =>
    if jsSpaceB c then
      (if inRun then [] else [' ']) ++ collapseWsAux true tl
    else
      c :: collapseWsAux false tl

/-- `.replace(/\s+/g, ' ')` on a whole string. -/
def collapseWs (l : List Char) : List Char := collapseWsAux false l

/-! ### Text Normalizer (step 1 of `cleanTextLocally`) -/

/-- The character class of `.replace(/^[=\-@®©]+/g, '')`. -/
def leadSpecialB (c : Char) : Bool :=
  ['=', '-', '@', '®', '©'].contains c

/-- `.replace(/^[=\-@®©]+/g, '')`: the anchored pattern matches only at the
start of the string, removing the maximal leading run of those characters. -/
def stripLeadingSpecials (l : List Char) : List Char :=
  l.dropWhile leadSpecialB

/-- Removal of every occurrence of a literal pattern
(`.replace(/<literal>/g, '')`), scanning left to right over non-overlapping
matches.  The fuel argument bounds the recursion; `removeLit` initialises it
with the length of the string, which always suffices because each step
consumes at least one character. -/
def removeLitFuel (pat : List Char) : Nat → List Char → List Char
  | 0, l => l
  | n + 1, l =>
    match l with
    | [] => []
    | c :: tl =>
      if pat.isPrefixOf (c :: tl) ∧ pat ≠ [] then
        removeLitFuel pat n (tl.drop (pat.length - 1))
      else
        c :: removeLitFuel pat n tl

/-- `.replace(/<literal>/g, '')` for a non-empty literal pattern. -/
def removeLit (pat l : List Char) : List Char :=
  removeLitFuel pat l.length l

/-- The literal navigation phrase removed by the second `.replace` of the
normalizer. -/
def navPhrase : List Char :=
  "Watch Live Sign In Home News Sport Business Innovation Culture Arts Travel Earth Audio Video Live".data

/-- The word sequence of the pattern
`/Home\s+News\s+Sport\s+Business\s+Innovation\s+Culture\s+Arts\s+Travel\s+Earth\s+Audio\s+Video\s+Live/g`. -/
def navWords : List (List Char) :=
  ["Home".data, "News".data, "Sport".data, "Business".data, "Innovation".data,
   "Culture".data, "Arts".data, "Travel".data, "Earth".data, "Audio".data,
   "Video".data, "Live".data]

/-- Matching of `w₁\s+w₂\s+…\s+wₙ` at the head of a string: each word must
appear literally, separated by non-empty whitespace runs.  The greedy `\s+`
consumes the maximal run; since no word starts with a whitespace character
this is exactly the regex behaviour.  Returns the rest of the string after
the match. -/
def matchWordsWs : List (List Char) → List Char → Option (List Char)
  | [], l => some l
  | [w], l => if w.isPrefixOf l then some (l.drop w.length) else none
  | w :: w2 :: ws, l =>
    if w.isPrefixOf l then
      let l2 := l.drop w.length
      if (l2.takeWhile jsSpaceB).isEmpty then none
      else matchWordsWs (w2 :: ws) (l2.dropWhile jsSpaceB)
    else none

/-- Global removal of the whitespace-flexible navigation pattern.  The guard
`r.length ≤ n` maintains the fuel invariant; it always holds when the match
succeeds because the pattern consumes at least the four characters of
`Home`. -/
def removeNavFlexFuel : Nat → List Char → List Char
  | 0, l => l
  | n + 1, [] => []
  | n + 1, c :: tl =>
    match matchWordsWs navWords (c :: tl) with
    | some r => if r.length ≤ n then removeNavFlexFuel n r else c :: removeNavFlexFuel n tl
    | none => c :: removeNavFlexFuel n tl

/-- `.replace(/Home\s+News\s+…\s+Live/g, '')`. -/
def removeNavFlex (l : List Char) : List Char :=
  removeNavFlexFuel l.length l

/-- The allowed character set of
`.replace(/[^a-zA-Z0-9\s.,!?;:'"()\-$£]/g, ' ')`. -/
def allowedB (c : Char) : Bool :=
  isAsciiAlphaB c || isDigitB c || jsSpaceB c ||
  (['.', ',', '!', '?', ';', ':', '(', ')', '-', '$', '£'].contains c) ||
  c == qChar || c == aChar

/-- `.replace(/[^a-zA-Z0-9\s.,!?;:'"()\-$£]/g, ' ')`: every character outside
the allowed set becomes a single space. -/
def mapDisallowed (l : List Char) : List Char :=
  l.map (fun c => if allowedB c then c else ' ')

/-- One of the four passes `.replace(/\s*X\s*/g, rep)` for a literal
character `X` (`[`, `]`, `(`, `)`).  At every scan position the pattern
matches iff the maximal whitespace run starting there is followed by `X`;
the match also swallows the whitespace following `X`.  The guard
`r.length ≤ n` maintains the fuel invariant; it always holds because a match
consumes at least the character `X` itself. -/
def wsTokenFuel (target : Char) (rep : List Char) : Nat → List Char → List Char
  | 0, l => l
  | n + 1, [] => []
  | n + 1, c :: tl =>
    match (c :: tl).dropWhile jsSpaceB with
    | t :: tl2 =>
      if t = target then
        if (tl2.dropWhile jsSpaceB).length ≤ n then
          rep ++ wsTokenFuel target rep n (tl2.dropWhile jsSpaceB)
        else c :: wsTokenFuel target rep n tl
      else c :: wsTokenFuel target rep n tl
    | [] => c :: wsTokenFuel target rep n tl

/-- `.replace(/\s*X\s*/g, rep)`. -/
def wsTokenPass (target : Char) (rep : List Char) (l : List Char) : List Char :=
  wsTokenFuel target rep l.length l

/-- The pass `.replace(/["|"]/g, '"')`.  The source file contains plain ASCII
double quotes inside the class, so the class is exactly the two characters
`"` and `|`, both rewritten to `"`. -/
def quotePass (l : List Char) : List Char :=
  l.map (fun c => if c == qChar || c == '|' then qChar else c)

/-- The pass `.replace(/['']/g, "'")`.  The source file contains plain ASCII
apostrophes inside the class, so the class is exactly `'`, rewritten to
itself. -/
def aposPass (l : List Char) : List Char :=
  l.map (fun c => if c == aChar then aChar else c)

/-- The full Text Normalizer: the chained `.replace` passes of step 1 of
`cleanTextLocally`, followed by `.trim()`. -/
def normalizeText (t : List Char) : List Char :=
  trimL (aposPass (quotePass
    (wsTokenPass ')' [')', ' '] (wsTokenPass '(' ['(']
      (wsTokenPass ']' [' '] (wsTokenPass '[' [' ']
        (mapDisallowed (removeNavFlex (removeLit navPhrase
          (stripLeadingSpecials t))))))))))

/-! ### Sentence Segmenter & Cleaner (step 2 of `cleanTextLocally`) -/

/-- Sentence-ending characters of the split pattern `[.!?]`. -/
def sentEndB (c : Char) : Bool :=
  c == '.' || c == '!' || c == '?'

/-- Whether the first character of a list is ECMAScript whitespace. -/
def headIsWsB : List Char → Bool
  | [] => false
  | c :: _ => jsSpaceB c

/-- The split `cleaned.split(/(?<=[.!?])\s+/)`: a maximal whitespace run
preceded by `.`, `!` or `?` separates sentences and is consumed.  `acc`
holds the current sentence reversed; `skipping` is true while consuming the
whitespace run of a separator (so that a sentence boundary directly
followed by more text restarts cleanly). -/
def splitSentAux : Bool → List Char → List Char → List (List Char)
  | _, acc, [] => [acc.reverse]
  | skipping, acc, c :: tl =>
    if skipping && jsSpaceB c then splitSentAux true acc tl
    else if sentEndB c && headIsWsB tl then
      (acc.reverse ++ [c]) :: splitSentAux true [] tl
    else
      splitSentAux false (c :: acc) tl

/-- `cleaned.split(/(?<=[.!?])\s+/)`. -/
def splitSentences (l : List Char) : List (List Char) :=
  splitSentAux false [] l

/-- The `{1,5}`-uppercase test `/^[A-Z\s]{1,5}$/`: length between 1 and 5
and every character an ASCII uppercase letter or whitespace. -/
def isShortUpperB (t : List Char) : Bool :=
  decide (1 ≤ t.length) && decide (t.length ≤ 5) &&
  t.all (fun c => isUpperB c || jsSpaceB c)

/-- The no-letter test `/^[^a-zA-Z]*$/`: no ASCII letter anywhere. -/
def noAlphaB (t : List Char) : Bool :=
  t.all (fun c => !(isAsciiAlphaB c))

/-- The sentence filter of the Segmenter & Cleaner: keeps a (trimmed)
candidate sentence iff its length is at least 5, it is not a 1–5 character
run of uppercase letters and whitespace, and it contains a letter. -/
def keepSentenceB (s : List Char) : Bool :=
  !(decide (s.length < 5)) && !(isShortUpperB s) && !(noAlphaB s)

/-- `.replace(/^[a-z]/, m => m.toUpperCase())`: upcases the first character
when it is an ASCII lowercase letter. -/
def capitalizeFirst : List Char → List Char
  | [] => []
  | c :: tl => upChar c :: tl

/-- The pass `.replace(/([a-zA-Z])'([a-zA-Z])/g, "$1'$2")`.  The replacement
template reassembles exactly the matched text (both capture groups and the
apostrophe between them), so the pass returns its input unchanged. -/
def fixContractions (s : List Char) : List Char := s

/-- The pass `.replace(/(\w+)([,.!?;:])/g, '$1$2')`.  The replacement
template reassembles exactly the matched text, so the pass returns its
input unchanged. -/
def fixWordPunct (s : List Char) : List Char := s

/-- The punctuation class `[,.!?;:]` of the spacing passes. -/
def punctB (c : Char) : Bool :=
  [',', '.', '!', '?', ';', ':'].contains c

/-- `.replace(/\s+([,.!?;:])/g, '$1')`: a maximal whitespace run followed by
a punctuation mark is replaced by the punctuation mark alone.  The guard
`tl2.length ≤ n` maintains the fuel invariant; it always holds because the
match consumes at least one whitespace character and the punctuation
mark. -/
def rmSpBeforeFuel : Nat → List Char → List Char
  | 0, l => l
  | n + 1, [] => []
  | n + 1, c :: tl =>
    if jsSpaceB c then
      match (c :: tl).dropWhile jsSpaceB with
      | p :: tl2 =>
        if punctB p then
          if tl2.length ≤ n then p :: rmSpBeforeFuel n tl2
          else c :: rmSpBeforeFuel n tl
        else c :: rmSpBeforeFuel n tl
      | [] => c :: rmSpBeforeFuel n tl
    else c :: rmSpBeforeFuel n tl

/-- `.replace(/\s+([,.!?;:])/g, '$1')`. -/
def rmSpaceBeforePunct (l : List Char) : List Char :=
  rmSpBeforeFuel l.length l

/-- `.replace(/([,.!?;:])\s*/g, '$1 ')`: each punctuation mark and the
(possibly empty) whitespace run after it are replaced by the mark followed
by a single space.  The guard `r.length ≤ n` always holds because the match
consumes the punctuation mark. -/
def addSpAfterFuel : Nat → List Char → List Char
  | 0, l => l
  | n + 1, [] => []
  | n + 1, c :: tl =>
    if punctB c then
      if (tl.dropWhile jsSpaceB).length ≤ n then
        c :: ' ' :: addSpAfterFuel n (tl.dropWhile jsSpaceB)
      else c :: addSpAfterFuel n tl
    else c :: addSpAfterFuel n tl

/-- `.replace(/([,.!?;:])\s*/g, '$1 ')`. -/
def addSpaceAfterPunct (l : List Char) : List Char :=
  addSpAfterFuel l.length l

/-- The per-sentence transformation chain of the Segmenter & Cleaner, in
source order: capitalize, collapse whitespace, the two identity passes,
remove spaces before punctuation, single space after punctuation, trim. -/
def processSentence (s : List Char) : List Char :=
  trimL (addSpaceAfterPunct (rmSpaceBeforePunct
    (fixWordPunct (fixContractions (collapseWs (capitalizeFirst s))))))

/-- `processedSentences`: split into sentences, trim each, filter, then
transform each survivor. -/
def processedSentences (cleaned : List Char) : List (List Char) :=
  (((splitSentences cleaned).map trimL).filter keepSentenceB).map processSentence

/-! ### Paragraph Composer (step 3 of `cleanTextLocally`) -/

/-- `/^["']/.test(sentence)`. -/
def startsWithQuoteB : List Char → Bool
  | [] => false
  | c :: _ => c == qChar || c == aChar

/-- `/[:]\s*$/.test(sentence)`: a colon followed only by whitespace up to
the end of the string. -/
def endsColonWsB (s : List Char) : Bool :=
  match s.reverse.dropWhile jsSpaceB with
  | c :: _ => c == ':'
  | [] => false

/-- `shouldStartNewParagraph`: the paragraph-break disjunction evaluated
for the current sentence against the running accumulator. -/
def shouldBreak (cur : List (List Char)) (s : List Char) : Prop :=
  3 ≤ cur.length ∨ startsWithQuoteB s = true ∨ s.length < 30 ∨ endsColonWsB s = true

instance (cur : List (List Char)) (s : List Char) : Decidable (shouldBreak cur s) := by
  unfold shouldBreak; infer_instance

/-- The `forEach` body of the Paragraph Composer.  `paras` collects closed
paragraphs, `cur` is the running accumulator.  An empty (after trimming)
sentence is skipped entirely.  Otherwise the accumulator is flushed when
the break condition holds and the accumulator is non-empty, the sentence is
appended, and — when the sentence is the last element of the list — the
accumulator is flushed unconditionally (the code checks
`index === processedSentences.length - 1`, so a trailing skipped sentence
would leave the accumulator unflushed). -/
def composeAux (paras cur : List (List Char)) : List (List Char) → List (List Char)
  | [] => paras
  | s :: rest =>
    if (trimL s).isEmpty then composeAux paras cur rest
    else
      let doBreak : Bool := decide (shouldBreak cur s ∧ cur ≠ [])
      let p2 := if doBreak then paras ++ [joinSep [' '] cur] else paras
      let c3 := (if doBreak then [] else cur) ++ [s]
      match rest with
      | [] => p2 ++ [joinSep [' '] c3]
      | _ :: _ => composeAux p2 c3 rest

/-- The Paragraph Composer. -/
def composeParagraphs (ss : List (List Char)) : List (List Char) :=
  composeAux [] [] ss

/-- Step 4 of `cleanTextLocally`: drop paragraphs that are empty after
trimming, trim the rest, and join with a blank line. -/
def finalDocument (paras : List (List Char)) : List Char :=
  joinSep ['\n', '\n'] ((paras.filter (fun p => !(trimL p).isEmpty)).map trimL)

/-- The whole local cleanup pipeline `cleanTextLocally`. -/
def cleanTextLocally (t : List Char) : List Char :=
  finalDocument (composeParagraphs (processedSentences (normalizeText t)))

/-! ### Word model, Word Filter and Spatial Sorter (`filterAndFormatBlocks`) -/

/-- A bounding box `{x0, y0, x1, y1}` (pixel coordinates, as delivered by
the OCR engine). -/
structure BBox where
  x0 : ℤ
  y0 : ℤ
  x1 : ℤ
  y1 : ℤ
deriving DecidableEq

/-- `Math.abs` on integers. -/
def absI (n : ℤ) : ℤ := if n < 0 then -n else n

/-- A recognized word (`TextBlock` in the source): text, normalized
confidence (the orchestrator divides the OCR engine's 0–100 score by 100
before building the block), and bounding box. -/
structure TextBlock where
  text : List Char
  confidence : ℚ
  bbox : BBox
deriving DecidableEq

/-- The navigation labels of
`/^(Home|News|Sport|Business|Innovation|Culture|Arts|Travel|Earth|Audio|Video|Live)$/i`,
in lowercase (the `/i` test is modelled by comparing the lowercased text). -/
def navLabelsLower : List (List Char) :=
  ["home".data, "news".data, "sport".data, "business".data, "innovation".data,
   "culture".data, "arts".data, "travel".data, "earth".data, "audio".data,
   "video".data, "live".data]

/-- The case-insensitive exact navigation-label test. -/
def isNavLabelB (t : List Char) : Bool :=
  navLabelsLower.contains (t.map lowChar)

/-- The confidence threshold 0.6 of the Word Filter, as the reduced
rational 3/5. -/
def confThreshold : ℚ := ⟨3, 5, by decide, by decide⟩

/-- The Word Filter predicate of `filterAndFormatBlocks` (the source's chain
of early `return false` checks, equivalently a conjunction): trimmed length
at least 3, not a 1–5 character uppercase/whitespace run, confidence at
least 0.6, contains a letter, and not a navigation label. -/
def keepBlock (b : TextBlock) : Bool :=
  !(decide ((trimL b.text).length < 3)) &&
  !(isShortUpperB (trimL b.text)) &&
  !(decide (b.confidence < confThreshold)) &&
  !(noAlphaB (trimL b.text)) &&
  !(isNavLabelB (trimL b.text))

/-- The Word Filter stage. -/
def filterWords (bs : List TextBlock) : List TextBlock :=
  bs.filter keepBlock

/-- The sort comparator of `filterAndFormatBlocks`, as the predicate
`compare(a, b) ≤ 0`: when the `y0` coordinates differ by less than 10 the
comparator returns `a.x0 - b.x0`, otherwise `a.y0 - b.y0`. -/
def leBlocks (a b : TextBlock) : Bool :=
  if absI (a.bbox.y0 - b.bbox.y0) < 10 then decide (a.bbox.x0 ≤ b.bbox.x0)
  else decide (a.bbox.y0 ≤ b.bbox.y0)

/-- Stable merge of two lists: elements of the left list are emitted first
whenever `le` accepts the pair.  Fuel-driven so that it reduces in the
kernel; `jsMerge` supplies sufficient fuel. -/
def jsMergeFuel {α : Type} (le : α → α → Bool) : Nat → List α → List α → List α
  | 0, l, r => l ++ r
  | _ + 1, [], r => r
  | _ + 1, a :: l, [] => a :: l
  | n + 1, a :: l, b :: r =>
    if le a b then a :: jsMergeFuel le n l (b :: r)
    else b :: jsMergeFuel le n (a :: l) r

/-- Stable merge with sufficient fuel. -/
def jsMerge {α : Type} (le : α → α → Bool) (l r : List α) : List α :=
  jsMergeFuel le (l.length + r.length) l r

/-- Stable top-down merge sort, modelling the ECMAScript stable
`Array.prototype.sort`.  Fuel-driven (the length of the list always
suffices: each half is strictly shorter than the whole). -/
def jsMergeSortFuel {α : Type} (le : α → α → Bool) : Nat → List α → List α
  | 0, l => l
  | n + 1, l =>
    if l.length ≤ 1 then l
    else
      jsMerge le (jsMergeSortFuel le n (l.take (l.length / 2)))
        (jsMergeSortFuel le n (l.drop (l.length / 2)))

/-- Stable sort with sufficient fuel. -/
def jsMergeSort {α : Type} (le : α → α → Bool) (l : List α) : List α :=
  jsMergeSortFuel le l.length l

/-- The Spatial Sorter stage. -/
def sortBlocks (l : List TextBlock) : List TextBlock :=
  jsMergeSort leBlocks l

/-- `processedBlocks`: the filtered, sorted word list returned by
`filterAndFormatBlocks`. -/
def processedBlocks (bs : List TextBlock) : List TextBlock :=
  sortBlocks (filterWords bs)

/-- `processedBlocks.map(block => block.text).join(' ').replace(/\s+/g, ' ').trim()`. -/
def combinedText (bs : List TextBlock) : List Char :=
  trimL (collapseWs (joinSep [' '] (bs.map TextBlock.text)))

/-- The displayed-string update of `filterAndFormatBlocks`: `setCleanedText`
is called only when the combined text is non-empty (`if (combinedText)`),
otherwise the previously displayed string is left in place. -/
def displayedAfterRun (prev : List Char) (bs : List TextBlock) : List Char :=
  if (combinedText (processedBlocks bs)).isEmpty then prev
  else cleanTextLocally (combinedText (processedBlocks bs))

/-- The displayed-string update at the `analyzeFrame` level:
`filterAndFormatBlocks` is invoked only when the recognized word list is
non-empty (`if (blocks.length > 0 …)`). -/
def displayedAfterFrame (prev : List Char) (bs : List TextBlock) : List Char :=
  if bs.isEmpty then prev else displayedAfterRun prev bs

/-! ### The remote cleanup call (`cleanTextWithAI`) -/

/-- The outcome of the remote `textGeneration` collaborator call:
`Except.error` models a thrown error / timeout, `Except.ok none` models a
response with no generated text (a missing response or a missing
`generated_text` field), and `Except.ok (some g)` a response carrying
generated text `g` (possibly empty — the source's
`if (response && response.generated_text)` treats the empty string as
absent). -/
def cleanTextWithAI (outcome : Except Unit (Option (List Char)))
    (text : List Char) : List Char :=
  match outcome with
  | .error _ => text
  | .ok none => text
  | .ok (some g) => if g.isEmpty then text else trimL g

/-! ### Claim-side definitions -/

/-- The Spatial Sorter claim (C2), applied to one input list: every output
pair whose vertical distance is at least 10 is ordered by ascending `y0`,
and every output pair whose vertical distance is below 10 is ordered by
ascending `x0`.  (The claim additionally asserts stability on equal
`(y0, x0)` keys; refuting the conjunction of the first two clauses refutes
the whole conjunction.) -/
def sortClaimHolds (l : List TextBlock) : Prop :=
  (∀ i j : Fin (sortBlocks l).length, (i : ℕ) < (j : ℕ) →
      10 ≤ absI (((sortBlocks l).get i).bbox.y0 - ((sortBlocks l).get j).bbox.y0) →
      ((sortBlocks l).get i).bbox.y0 < ((sortBlocks l).get j).bbox.y0) ∧
  (∀ i j : Fin (sortBlocks l).length, (i : ℕ) < (j : ℕ) →
      absI (((sortBlocks l).get i).bbox.y0 - ((sortBlocks l).get j).bbox.y0) < 10 →
      ((sortBlocks l).get i).bbox.x0 ≤ ((sortBlocks l).get j).bbox.x0)

instance (l : List TextBlock) : Decidable (sortClaimHolds l) := by
  unfold sortClaimHolds; infer_instance

/-- The comparator ordering between two consecutive output words: words in
the same 10-pixel vertical band are ordered by `x0`, words in different
bands by `y0`. -/
def readingOrderStep (a b : TextBlock) : Prop :=
  (absI (a.bbox.y0 - b.bbox.y0) < 10 → a.bbox.x0 ≤ b.bbox.x0) ∧
  (10 ≤ absI (a.bbox.y0 - b.bbox.y0) → a.bbox.y0 < b.bbox.y0)

/-- Modelled from the claim's words (C3): the Paragraph Composer as a plain
fold — flush the accumulator exactly when it is non-empty and the break
condition holds for the current sentence, append the current sentence after
the flush check, and flush any non-empty accumulator unconditionally after
the last sentence. -/
def composeSpecAux (paras cur : List (List Char)) : List (List Char) → List (List Char)
  | [] => if cur.isEmpty then paras else paras ++ [joinSep [' '] cur]
  | s :: rest =>
    if decide (shouldBreak cur s ∧ cur ≠ []) then
      composeSpecAux (paras ++ [joinSep [' '] cur]) [s] rest
    else
      composeSpecAux paras (cur ++ [s]) rest

/-- The claim-side Paragraph Composer. -/
def composeSpec (ss : List (List Char)) : List (List Char) :=
  composeSpecAux [] [] ss

/-! ### Word Filter: confidence bound (C1) -/

/-- The threshold constant equals the rational 3/5 (= 0.6). -/
theorem confThreshold_eq : confThreshold = (3 : ℚ) / 5 := by
  rw [confThreshold, Rat.mk'_eq_divInt, Rat.divInt_eq_div]
  norm_num

/-- A block accepted by the Word Filter has confidence at least 0.6. -/
theorem keepBlock_confidence {b : TextBlock} (h : keepBlock b = true) :
    (3 : ℚ) / 5 ≤ b.confidence := by
  simp only [keepBlock, Bool.and_eq_true, Bool.not_eq_true',
    decide_eq_false_iff_not] at h
  rw [← confThreshold_eq]
  exact not_lt.mp h.1.1.2

/-- Sample block accepted by the Word Filter. -/
def wGood : TextBlock := ⟨"Hello".data, ⟨1, 1, by decide, by decide⟩, ⟨0, 0, 10, 10⟩⟩

/-- Sample block with confidence 0.55. -/
def wBad : TextBlock := ⟨"Great".data, ⟨11, 20, by decide, by decide⟩, ⟨0, 20, 10, 30⟩⟩

/-- C1: for every input list of recognized words, no word whose normalized
confidence is below 0.6 appears in the Word Filter's output; in particular
a word with confidence 0.55 is excluded whatever its text, bounding box, or
position in the list. -/
theorem C1_low_confidence_filtered (bs : List TextBlock) (b : TextBlock) :
    (b ∈ filterWords bs → (3 : ℚ) / 5 ≤ b.confidence) ∧
    (b.confidence = 11 / 20 → b ∉ filterWords bs) := by
  constructor
  · intro hb
    exact keepBlock_confidence (List.of_mem_filter hb)
  · intro hc hb
    have := keepBlock_confidence (List.of_mem_filter hb)
    rw [hc] at this
    norm_num at this

/-- Witness for C1 at a concrete two-word list. -/
theorem C1_low_confidence_filtered_witness :
    (3 : ℚ) / 5 ≤ wGood.confidence ∧ wBad ∉ filterWords [wGood, wBad] :=
  ⟨(C1_low_confidence_filtered [wGood] wGood).1 (by decide),
   (C1_low_confidence_filtered [wGood, wBad] wBad).2 (by
     show wBad.confidence = 11 / 20
     rw [show wBad.confidence = (⟨11, 20, by decide, by decide⟩ : ℚ) from rfl,
       Rat.mk'_eq_divInt, Rat.divInt_eq_div]
     norm_num)⟩

/-! ### Spatial Sorter: counterexample to the global invariants (C2) -/

/-- Four words on which the transitive-closure reading-order claim fails.
The comparator is not transitive: the second word (`y0 = 20`) and the
fourth (`y0 = 25`) lie in the same 10-pixel band with descending `x0`, but
the stable merge sort never compares them directly — the second word is
only compared with the third (`y0 = 12`, same band, equal `x0`), so the
pair survives in band-descending `x0` order. -/
def cexBlocks : List TextBlock :=
  [⟨"pppp".data, 1, ⟨0, 0, 1, 1⟩⟩,
   ⟨"xxxx".data, 1, ⟨100, 20, 101, 21⟩⟩,
   ⟨"qqqq".data, 1, ⟨100, 12, 101, 13⟩⟩,
   ⟨"yyyy".data, 1, ⟨50, 25, 51, 26⟩⟩]

/-- C2, counterexample: `cexBlocks` is a legitimate filtered word list
(every word passes the Word Filter unchanged), yet the Spatial Sorter's
output on it keeps the word at `(x0 = 100, y0 = 20)` before the word at
`(x0 = 50, y0 = 25)`; their `y0` differ by less than 10 yet their `x0` are
descending, violating the claimed same-line ordering (and hence the
claim's conjunction, which also contains the band clause and the stability
clause). -/
theorem C2_sort_counterexample :
    filterWords cexBlocks = cexBlocks ∧ ¬ sortClaimHolds cexBlocks := by
  constructor
  · decide
  · decide

/-! ### Spatial Sorter: permutation and local ordering (C2, amended) -/

/-- The stable merge permutes the concatenation of its inputs (any fuel). -/
theorem jsMergeFuel_perm {α : Type} (le : α → α → Bool) :
    ∀ (n : ℕ) (l r : List α), List.Perm (jsMergeFuel le n l r) (l ++ r)
  | 0, _, _ => List.Perm.refl _
  | _ + 1, [], r => by simp [jsMergeFuel]
  | _ + 1, _ :: _, [] => by simp [jsMergeFuel]
  | n + 1, a :: l, b :: r => by
    simp only [jsMergeFuel]
    split
    · exact (jsMergeFuel_perm le n l (b :: r)).cons a
    · exact ((jsMergeFuel_perm le n (a :: l) r).cons b).trans List.perm_middle.symm

/-- The head of a merge is the head of one of the two inputs. -/
theorem jsMergeFuel_head {α : Type} (le : α → α → Bool) (n : ℕ) (l r : List α) :
    (jsMergeFuel le n l r).head? = l.head? ∨ (jsMergeFuel le n l r).head? = r.head? := by
  cases n with
  | zero =>
    cases l with
    | nil => exact Or.inr rfl
    | cons a l => exact Or.inl rfl
  | succ n =>
    cases l with
    | nil => exact Or.inr rfl
    | cons a l =>
      cases r with
      | nil => exact Or.inl rfl
      | cons b r =>
        simp only [jsMergeFuel]
        split
        · exact Or.inl rfl
        · exact Or.inr rfl

/-- Merging two locally sorted lists with a total comparator yields a
locally sorted list (consecutive elements satisfy the comparator). -/
theorem jsMergeFuel_chain {α : Type} (le : α → α → Bool)
    (htot : ∀ a b, le a b = true ∨ le b a = true) :
    ∀ (n : ℕ) (l r : List α), l.length + r.length ≤ n →
      List.Chain' (fun a b => le a b = true) l →
      List.Chain' (fun a b => le a b = true) r →
      List.Chain' (fun a b => le a b = true) (jsMergeFuel le n l r)
  | 0, l, r, hn, _, _ => by
    have hl0 : l = [] := List.length_eq_zero.mp (by omega)
    have hr0 : r = [] := List.length_eq_zero.mp (by omega)
    subst hl0; subst hr0
    simp [jsMergeFuel]
  | _ + 1, [], r, _, _, hr => by simpa [jsMergeFuel] using hr
  | _ + 1, _ :: _, [], _, hl, _ => by simpa [jsMergeFuel] using hl
  | n + 1, a :: l, b :: r, hn, hl, hr => by
    simp only [jsMergeFuel]
    split
    next hab =>
      refine List.chain'_cons'.mpr
        ⟨?_, jsMergeFuel_chain le htot n l (b :: r)
          (by simp only [List.length_cons] at hn ⊢; omega) hl.tail hr⟩
      intro y hy
      rcases jsMergeFuel_head le n l (b :: r) with hh | hh
      · rw [hh] at hy
        exact (List.chain'_cons'.mp hl).1 y hy
      · rw [hh] at hy
        simp only [List.head?_cons, Option.mem_def, Option.some.injEq] at hy
        subst hy
        exact hab
    next hab =>
      have hba : le b a = true := (htot a b).resolve_left hab
      refine List.chain'_cons'.mpr
        ⟨?_, jsMergeFuel_chain le htot n (a :: l) r
          (by simp only [List.length_cons] at hn ⊢; omega) hl hr.tail⟩
      intro y hy
      rcases jsMergeFuel_head le n (a :: l) r with hh | hh
      · rw [hh] at hy
        simp only [List.head?_cons, Option.mem_def, Option.some.injEq] at hy
        subst hy
        exact hba
      · rw [hh] at hy
        exact (List.chain'_cons'.mp hr).1 y hy

/-- The stable sort permutes its input (any fuel). -/
theorem jsMergeSortFuel_perm {α : Type} (le : α → α → Bool) :
    ∀ (n : ℕ) (l : List α), List.Perm (jsMergeSortFuel le n l) l
  | 0, _ => List.Perm.refl _
  | n + 1, l => by
    simp only [jsMergeSortFuel]
    split
    · exact List.Perm.refl _
    · refine (jsMergeFuel_perm le _ _ _).trans ?_
      refine (List.Perm.append (jsMergeSortFuel_perm le n _)
        (jsMergeSortFuel_perm le n _)).trans ?_
      rw [List.take_append_drop]

/-- With a total comparator and sufficient fuel, the stable sort is locally
sorted: consecutive output elements satisfy the comparator. -/
theorem jsMergeSortFuel_chain {α : Type} (le : α → α → Bool)
    (htot : ∀ a b, le a b = true ∨ le b a = true) :
    ∀ (n : ℕ) (l : List α), l.length ≤ n →
      List.Chain' (fun a b => le a b = true) (jsMergeSortFuel le n l)
  | 0, l, hn => by
    have : l = [] := List.length_eq_zero.mp (by omega)
    subst this
    simp [jsMergeSortFuel]
  | n + 1, l, hn => by
    simp only [jsMergeSortFuel]
    split
    next hlen =>
      match l, hlen with
      | [], _ => exact List.chain'_nil
      | [a], _ => exact List.chain'_singleton a
    next hlen =>
      have h2 : 2 ≤ l.length := by omega
      have hhalf : l.length / 2 < l.length := Nat.div_lt_self (by omega) (by omega)
      have hone : 1 ≤ l.length / 2 :=
        (Nat.one_le_div_iff (by omega)).mpr h2
      apply jsMergeFuel_chain le htot _ _ _ le_rfl
      · apply jsMergeSortFuel_chain le htot n
        simp only [List.length_take]
        omega
      · apply jsMergeSortFuel_chain le htot n
        simp only [List.length_drop]
        omega

/-- The block comparator is total. -/
theorem leBlocks_total (a b : TextBlock) :
    leBlocks a b = true ∨ leBlocks b a = true := by
  unfold leBlocks
  have habs : absI (a.bbox.y0 - b.bbox.y0) = absI (b.bbox.y0 - a.bbox.y0) := by
    unfold absI
    split <;> split <;> omega
  by_cases hband : absI (a.bbox.y0 - b.bbox.y0) < 10
  · rw [if_pos hband, if_pos (by rw [← habs]; exact hband)]
    rcases le_total a.bbox.x0 b.bbox.x0 with h | h
    · exact Or.inl (decide_eq_true h)
    · exact Or.inr (decide_eq_true h)
  · rw [if_neg hband, if_neg (by rw [← habs]; exact hband)]
    rcases le_total a.bbox.y0 b.bbox.y0 with h | h
    · exact Or.inl (decide_eq_true h)
    · exact Or.inr (decide_eq_true h)

/-- An accepted comparator pair satisfies the reading-order step relation. -/
theorem leBlocks_step {a b : TextBlock} (h : leBlocks a b = true) :
    readingOrderStep a b := by
  unfold leBlocks at h
  constructor
  · intro hband
    rw [if_pos hband] at h
    exact of_decide_eq_true h
  · intro h10
    rw [if_neg (not_lt.mpr h10)] at h
    rcases lt_or_eq_of_le (of_decide_eq_true h) with hlt | heq
    · exact hlt
    · exfalso
      have : absI (a.bbox.y0 - b.bbox.y0) = 0 := by
        rw [heq]
        simp [absI]
      omega

/-- C2, amended: the Spatial Sorter's output is a permutation of the
filtered word list, and every pair of consecutive output words satisfies
the comparator ordering (same 10-pixel band ⇒ ascending `x0`, different
bands ⇒ ascending `y0`).  The transitive-closure version of the claim is
refuted by `C2_sort_counterexample`, because the comparator is not
transitive. -/
theorem C2_sort_amended (l : List TextBlock) :
    List.Perm (sortBlocks l) l ∧ List.Chain' readingOrderStep (sortBlocks l) := by
  constructor
  · exact jsMergeSortFuel_perm leBlocks l.length l
  · exact (jsMergeSortFuel_chain leBlocks leBlocks_total l.length l le_rfl).imp
      (fun a b h => leBlocks_step h)

/-! ### Scenario 2 (C5) -/

/-- The normalized input of Scenario 2. -/
def scen2 : List Char :=
  "hello world this is great. and it works well. ok.".data

/-- C5, counterexample: on the Scenario 2 input the Segmenter & Cleaner does
not produce the three claimed sentences — the trailing sentence `ok.` has
trimmed length 3, which is below the discard threshold of 5, so only two
sentences survive. -/
theorem C5_scenario2_counterexample :
    processedSentences (normalizeText scen2) ≠
      ["Hello world this is great.".data, "And it works well.".data, "Ok.".data] := by
  decide

/-- C5, amended: the Segmenter produces exactly the two capitalized
sentences `Hello world this is great.` and `And it works well.` (the
candidate `ok.` is discarded because its trimmed length 3 is below 5), and
— each being shorter than 30 characters — the Composer emits a final
document of two paragraphs separated by a blank line. -/
theorem C5_scenario2_amended :
    processedSentences (normalizeText scen2) =
      ["Hello world this is great.".data, "And it works well.".data] ∧
    cleanTextLocally scen2 =
      "Hello world this is great.\n\nAnd it works well.".data := by
  decide

/-! ### Curly quotes in the Text Normalizer (C6) -/

/-- C6, counterexample: on an input containing the curly quotes `“` and `”`
the Text Normalizer's output contains no straight ASCII double quote (and no
apostrophe) at all — the curly quotes are replaced by spaces (which `trim`
then strips at the edges), not by straight quotes. -/
theorem C6_curly_quote_counterexample :
    '“' ∈ "“hi there”".data ∧
    normalizeText "“hi there”".data = "hi there".data ∧
    qChar ∉ normalizeText "“hi there”".data ∧
    aChar ∉ normalizeText "“hi there”".data := by
  decide

/-! ### Idempotence failure of `cleanTextLocally` (C7) -/

/-- C7: `cleanTextLocally` is not idempotent.  On the input ` -abc defg.`
the first pass outputs `-abc defg.` (the leading dash survives because the
strip-leading-specials pass only fires when the dash is the very first
character); re-running the pipeline on that output strips the now-leading
dash and then capitalizes the sentence, producing `Abc defg.` — an
alteration of content and casing, not of trivial whitespace. -/
theorem C7_not_idempotent :
    cleanTextLocally " -abc defg.".data = "-abc defg.".data ∧
    cleanTextLocally (cleanTextLocally " -abc defg.".data) = "Abc defg.".data ∧
    cleanTextLocally (cleanTextLocally " -abc defg.".data) ≠
      cleanTextLocally " -abc defg.".data := by
  decide

/-! ### Degenerate input and the displayed string (C8) -/

/-- C8, counterexample: on an empty word list, and likewise on a word list
whose only word is removed by the Word Filter (confidence 0.55), the
displayed string keeps its previous value `old text` — it is not replaced
by an empty document. -/
theorem C8_degenerate_counterexample :
    displayedAfterFrame "old text".data [] = "old text".data ∧
    displayedAfterFrame "old text".data [wBad] = "old text".data ∧
    "old text".data ≠ ([] : List Char) := by
  decide

/-- Unfolding equation for `displayedAfterFrame` on a non-empty list. -/
theorem displayedAfterFrame_cons (prev : List Char) (b : TextBlock) (tl : List TextBlock) :
    displayedAfterFrame prev (b :: tl) = displayedAfterRun prev (b :: tl) := by
  unfold displayedAfterFrame
  rw [List.isEmpty_cons, if_neg Bool.false_ne_true]

/-- Unfolding equation for `displayedAfterRun`. -/
theorem displayedAfterRun_eq (prev : List Char) (bs : List TextBlock) :
    displayedAfterRun prev bs =
      if (combinedText (processedBlocks bs)).isEmpty then prev
      else cleanTextLocally (combinedText (processedBlocks bs)) := rfl

/-- C8, amended: on a degenerate run (the combined text of the processed
blocks is empty — in particular for an empty or entirely-filtered word
list) the previously displayed string is left unchanged; the display is
replaced only when the run produces non-empty combined text, in which case
it shows the cleaned document of that text. -/
theorem C8_degenerate_amended (prev : List Char) (bs : List TextBlock) :
    (combinedText (processedBlocks bs) = [] → displayedAfterFrame prev bs = prev) ∧
    (combinedText (processedBlocks bs) ≠ [] →
      displayedAfterFrame prev bs = cleanTextLocally (combinedText (processedBlocks bs))) := by
  constructor
  · intro h
    cases bs with
    | nil => rfl
    | cons b tl =>
      rw [displayedAfterFrame_cons, displayedAfterRun_eq, h]
      rfl
  · intro h
    cases bs with
    | nil => exact absurd rfl h
    | cons b tl =>
      rw [displayedAfterFrame_cons, displayedAfterRun_eq,
        if_neg (by simpa [List.isEmpty_iff] using h)]

/-- Witness for C8's amended claim at a concrete degenerate input. -/
theorem C8_degenerate_amended_witness :
    displayedAfterFrame "x".data [] = "x".data :=
  (C8_degenerate_amended "x".data []).1 (by decide)

/-! ### The remote cleanup fails open (C9) -/

/-- C9: for every input text, if the remote text-generation call throws or
returns a response without generated text, `cleanTextWithAI` returns the
original input text unchanged (and, being a total function into strings, it
returns a string in every case; on a response carrying non-empty generated
text it returns that text trimmed). -/
theorem C9_ai_cleanup_fails_open (outcome : Except Unit (Option (List Char)))
    (text : List Char) :
    ((∃ e, outcome = Except.error e) ∨ outcome = Except.ok none →
      cleanTextWithAI outcome text = text) ∧
    (∀ g, outcome = Except.ok (some g) →
      cleanTextWithAI outcome text = if g.isEmpty then text else trimL g) := by
  constructor
  · rintro (⟨e, rfl⟩ | rfl) <;> rfl
  · rintro g rfl
    rfl

/-- Witness for C9 at the two failure outcomes. -/
theorem C9_ai_cleanup_fails_open_witness :
    cleanTextWithAI (Except.error ()) "raw ocr text".data = "raw ocr text".data ∧
    cleanTextWithAI (Except.ok none) "raw ocr text".data = "raw ocr text".data :=
  ⟨(C9_ai_cleanup_fails_open (Except.error ()) "raw ocr text".data).1 (Or.inl ⟨(), rfl⟩),
   (C9_ai_cleanup_fails_open (Except.ok none) "raw ocr text".data).1 (Or.inr rfl)⟩

/-! ### Paragraph Composer flush behaviour (C3) -/

/-- On sentence lists with no empty-after-trim entries, the source's
`forEach`-with-index composer agrees with the claim's fold description. -/
theorem composeAux_eq_spec (ss : List (List Char)) :
    (∀ s ∈ ss, (trimL s).isEmpty = false) → ss ≠ [] →
    ∀ paras cur, composeAux paras cur ss = composeSpecAux paras cur ss := by
  induction ss with
  | nil => exact fun _ h => absurd rfl h
  | cons s rest ih =>
    intro hall _ paras cur
    have hs : (trimL s).isEmpty = false := hall s (List.mem_cons_self s rest)
    rw [composeAux, composeSpecAux]
    rw [if_neg (by simp [hs])]
    cases hbr : decide (shouldBreak cur s ∧ cur ≠ []) with
    | true =>
      simp only [hbr, if_true, List.nil_append]
      cases rest with
      | nil => simp [composeSpecAux]
      | cons r rest' =>
        exact ih (fun x hx => hall x (List.mem_cons_of_mem s hx)) (by simp) _ _
    | false =>
      simp only [hbr, Bool.false_eq_true, if_false]
      cases rest with
      | nil => simp [composeSpecAux]
      | cons r rest' =>
        exact ih (fun x hx => hall x (List.mem_cons_of_mem s hx)) (by simp) _ _

/-- C3: for every cleaned sentence sequence (no entry is empty after
trimming — the Segmenter & Cleaner never emits such entries), the Paragraph
Composer of the source equals the claim's description: the accumulator is
flushed exactly when it is non-empty and the current sentence satisfies the
break disjunction (accumulator holding ≥ 3 sentences, sentence starting
with a quotation mark, sentence shorter than 30 characters, or sentence
ending with a colon plus optional trailing whitespace); the sentence is
appended after the flush check, and after the last sentence a non-empty
accumulator is flushed unconditionally. -/
theorem C3_composer_flush_behaviour (ss : List (List Char))
    (h : ∀ s ∈ ss, (trimL s).isEmpty = false) :
    composeParagraphs ss = composeSpec ss := by
  cases ss with
  | nil => rfl
  | cons s rest =>
    exact composeAux_eq_spec (s :: rest) h (by simp) [] []

/-! ### Character-level facts about the passes -/

/-- Characters of a trimmed string come from the string. -/
theorem mem_trimL {c : Char} {l : List Char} (h : c ∈ trimL l) : c ∈ l := by
  unfold trimL at h
  rw [List.mem_reverse] at h
  have h2 := (List.dropWhile_sublist jsSpaceB).subset h
  rw [List.mem_reverse] at h2
  exact (List.dropWhile_sublist jsSpaceB).subset h2

/-- Characters of a whitespace-collapsed string are either the space
character or non-whitespace characters of the input. -/
theorem mem_collapseWsAux {c : Char} :
    ∀ (b : Bool) (l : List Char), c ∈ collapseWsAux b l →
      c = ' ' ∨ (jsSpaceB c = false ∧ c ∈ l)
  | _, [], h => absurd h (List.not_mem_nil c)
  | b, d :: tl, h => by
    rw [collapseWsAux] at h
    split at h
    · rcases List.mem_append.mp h with h' | h'
      · left
        cases b with
        | true => simp at h'
        | false => simpa using h'
      · rcases mem_collapseWsAux true tl h' with h'' | ⟨h1, h2⟩
        · exact Or.inl h''
        · exact Or.inr ⟨h1, List.mem_cons_of_mem d h2⟩
    · next hws =>
        rcases List.mem_cons.mp h with rfl | h'
        · exact Or.inr ⟨by simpa using hws, List.mem_cons_self c tl⟩
        · rcases mem_collapseWsAux false tl h' with h'' | ⟨h1, h2⟩
          · exact Or.inl h''
          · exact Or.inr ⟨h1, List.mem_cons_of_mem d h2⟩

/-- Characters survive `rmSpBeforeFuel` only if they were in the input. -/
theorem mem_rmSpBeforeFuel {c : Char} :
    ∀ (n : Nat) (l : List Char), c ∈ rmSpBeforeFuel n l → c ∈ l
  | 0, l, h => h
  | n + 1, [], h => h
  | n + 1, d :: tl, h => by
    rw [rmSpBeforeFuel] at h
    split at h
    · split at h
      next p tl2 hdw =>
        have hsub : (p :: tl2 : List Char) ⊆ d :: tl := by
          rw [← hdw]
          exact (List.dropWhile_sublist jsSpaceB).subset
        split at h
        · split at h
          · rcases List.mem_cons.mp h with rfl | h'
            · exact hsub (List.mem_cons_self c tl2)
            · exact hsub (List.mem_cons_of_mem p (mem_rmSpBeforeFuel n tl2 h'))
          · rcases List.mem_cons.mp h with rfl | h'
            · exact List.mem_cons_self c tl
            · exact List.mem_cons_of_mem d (mem_rmSpBeforeFuel n tl h')
        · rcases List.mem_cons.mp h with rfl | h'
          · exact List.mem_cons_self c tl
          · exact List.mem_cons_of_mem d (mem_rmSpBeforeFuel n tl h')
      next hdw =>
        rcases List.mem_cons.mp h with rfl | h'
        · exact List.mem_cons_self c tl
        · exact List.mem_cons_of_mem d (mem_rmSpBeforeFuel n tl h')
    · rcases List.mem_cons.mp h with rfl | h'
      · exact List.mem_cons_self c tl
      · exact List.mem_cons_of_mem d (mem_rmSpBeforeFuel n tl h')

/-- Characters of `addSpAfterFuel` output are the space character or input
characters. -/
theorem mem_addSpAfterFuel {c : Char} :
    ∀ (n : Nat) (l : List Char), c ∈ addSpAfterFuel n l → c = ' ' ∨ c ∈ l
  | 0, l, h => Or.inr h
  | n + 1, [], h => Or.inr h
  | n + 1, d :: tl, h => by
    rw [addSpAfterFuel] at h
    split at h
    · split at h
      · rcases List.mem_cons.mp h with rfl | h'
        · exact Or.inr (List.mem_cons_self c tl)
        · rcases List.mem_cons.mp h' with rfl | h''
          · exact Or.inl rfl
          · rcases mem_addSpAfterFuel n _ h'' with h3 | h3
            · exact Or.inl h3
            · exact Or.inr (List.mem_cons_of_mem d ((List.dropWhile_sublist jsSpaceB).subset h3))
      · rcases List.mem_cons.mp h with rfl | h'
        · exact Or.inr (List.mem_cons_self c tl)
        · rcases mem_addSpAfterFuel n tl h' with h3 | h3
          · exact Or.inl h3
          · exact Or.inr (List.mem_cons_of_mem d h3)
    · rcases List.mem_cons.mp h with rfl | h'
      · exact Or.inr (List.mem_cons_self c tl)
      · rcases mem_addSpAfterFuel n tl h' with h3 | h3
        · exact Or.inl h3
        · exact Or.inr (List.mem_cons_of_mem d h3)

/-- Characters of a `joinSep` output come from the separator or from one of
the joined lists. -/
theorem mem_joinSep {c : Char} {sep : List Char} :
    ∀ ls : List (List Char), c ∈ joinSep sep ls →
      c ∈ sep ∨ ∃ x ∈ ls, c ∈ x
  | [], h => absurd h (List.not_mem_nil c)
  | [x], h => Or.inr ⟨x, List.mem_singleton_self x, h⟩
  | x :: y :: ls, h => by
    rw [joinSep] at h
    rcases List.mem_append.mp h with h' | h'
    · rcases List.mem_append.mp h' with h'' | h''
      · exact Or.inr ⟨x, List.mem_cons_self x _, h''⟩
      · exact Or.inl h''
    · rcases mem_joinSep (y :: ls) h' with h'' | ⟨z, hz, hcz⟩
      · exact Or.inl h''
      · exact Or.inr ⟨z, List.mem_cons_of_mem x hz, hcz⟩

/-- Every character of a cleaned sentence is the space character or a
non-whitespace character — in particular never a newline. -/
theorem processSentence_chars {c : Char} {s : List Char}
    (h : c ∈ processSentence s) : c = ' ' ∨ jsSpaceB c = false := by
  unfold processSentence fixWordPunct fixContractions at h
  have h1 := mem_trimL h
  rcases mem_addSpAfterFuel _ _ h1 with h2 | h2
  · exact Or.inl h2
  · have h3 := mem_rmSpBeforeFuel _ _ h2
    rcases mem_collapseWsAux false _ h3 with h4 | ⟨h4, _⟩
    · exact Or.inl h4
    · exact Or.inr h4

/-! ### Curly quotes never reach the output (C6, amended) -/

/-- Characters of `mapDisallowed` output belong to the allowed set. -/
theorem mem_mapDisallowed {c : Char} {l : List Char}
    (h : c ∈ mapDisallowed l) : allowedB c = true := by
  rw [mapDisallowed, List.mem_map] at h
  obtain ⟨d, _, rfl⟩ := h
  by_cases hd : allowedB d = true
  · rwa [if_pos hd]
  · rw [if_neg hd]
    decide

/-- Characters of `wsTokenFuel` output come from the replacement or the
input. -/
theorem mem_wsTokenFuel {target : Char} {rep : List Char} {c : Char} :
    ∀ (n : Nat) (l : List Char), c ∈ wsTokenFuel target rep n l → c ∈ rep ∨ c ∈ l
  | 0, l, h => Or.inr h
  | n + 1, [], h => Or.inr h
  | n + 1, d :: tl, h => by
    rw [wsTokenFuel] at h
    split at h
    next t tl2 hdw =>
      have hsub : (t :: tl2 : List Char) ⊆ d :: tl := by
        rw [← hdw]
        exact (List.dropWhile_sublist jsSpaceB).subset
      split at h
      · split at h
        · rcases List.mem_append.mp h with h' | h'
          · exact Or.inl h'
          · rcases mem_wsTokenFuel n _ h' with h3 | h3
            · exact Or.inl h3
            · exact Or.inr
                (hsub (List.mem_cons_of_mem t ((List.dropWhile_sublist jsSpaceB).subset h3)))
        · rcases List.mem_cons.mp h with rfl | h'
          · exact Or.inr (List.mem_cons_self c tl)
          · rcases mem_wsTokenFuel n tl h' with h3 | h3
            · exact Or.inl h3
            · exact Or.inr (List.mem_cons_of_mem d h3)
      · rcases List.mem_cons.mp h with rfl | h'
        · exact Or.inr (List.mem_cons_self c tl)
        · rcases mem_wsTokenFuel n tl h' with h3 | h3
          · exact Or.inl h3
          · exact Or.inr (List.mem_cons_of_mem d h3)
    next hdw =>
      rcases List.mem_cons.mp h with rfl | h'
      · exact Or.inr (List.mem_cons_self c tl)
      · rcases mem_wsTokenFuel n tl h' with h3 | h3
        · exact Or.inl h3
        · exact Or.inr (List.mem_cons_of_mem d h3)

/-- Characters of the quote-normalization pass output are the double quote
or input characters. -/
theorem mem_quotePass {c : Char} {l : List Char}
    (h : c ∈ quotePass l) : c = qChar ∨ c ∈ l := by
  rw [quotePass, List.mem_map] at h
  obtain ⟨d, hd, rfl⟩ := h
  by_cases h1 : (d == qChar || d == '|') = true
  · rw [if_pos h1]
    exact Or.inl rfl
  · rw [if_neg h1]
    exact Or.inr hd

/-- Characters of the apostrophe-normalization pass output are the
apostrophe or input characters. -/
theorem mem_aposPass {c : Char} {l : List Char}
    (h : c ∈ aposPass l) : c = aChar ∨ c ∈ l := by
  rw [aposPass, List.mem_map] at h
  obtain ⟨d, hd, rfl⟩ := h
  by_cases h1 : (d == aChar) = true
  · rw [if_pos h1]
    exact Or.inl rfl
  · rw [if_neg h1]
    exact Or.inr hd

/-- Every character of a Text Normalizer output belongs to the allowed
character set of the disallowed-character pass (which runs before the
bracket, parenthesis and quote passes; those only reintroduce allowed
characters). -/
theorem normalizeText_allowed {t : List Char} {c : Char}
    (h : c ∈ normalizeText t) : allowedB c = true := by
  unfold normalizeText wsTokenPass at h
  have h1 := mem_trimL h
  rcases mem_aposPass h1 with rfl | h2
  · decide
  rcases mem_quotePass h2 with rfl | h3
  · decide
  rcases mem_wsTokenFuel _ _ h3 with h4 | h4
  · rcases List.mem_cons.mp h4 with rfl | h4'
    · decide
    rcases List.mem_singleton.mp h4' with rfl
    decide
  rcases mem_wsTokenFuel _ _ h4 with h5 | h5
  · rcases List.mem_singleton.mp h5 with rfl
    decide
  rcases mem_wsTokenFuel _ _ h5 with h6 | h6
  · rcases List.mem_singleton.mp h6 with rfl
    decide
  rcases mem_wsTokenFuel _ _ h6 with h7 | h7
  · rcases List.mem_singleton.mp h7 with rfl
    decide
  exact mem_mapDisallowed h7

/-- C6, amended: a curly/smart quote or curly apostrophe never appears in
the Text Normalizer's output — it is replaced by a single space by the
disallowed-character pass (step 3), which runs before the
quote-normalization step, so the quote-normalization step never sees it
(and, as written, that step only rewrites `|` and `"` to `"` and `'` to
`'`). -/
theorem C6_curly_quotes_amended (t : List Char) (c : Char)
    (hc : c ∈ ['“', '”', '‘', '’']) : c ∉ normalizeText t := by
  intro hmem
  have hall := normalizeText_allowed hmem
  rcases List.mem_cons.mp hc with rfl | hc
  · exact absurd hall (by decide)
  rcases List.mem_cons.mp hc with rfl | hc
  · exact absurd hall (by decide)
  rcases List.mem_cons.mp hc with rfl | hc
  · exact absurd hall (by decide)
  rcases List.mem_singleton.mp hc with rfl
  exact absurd hall (by decide)

/-- Witness for C6's amended claim at a concrete input containing curly
quotes. -/
theorem C6_curly_quotes_amended_witness :
    '“' ∉ normalizeText "say “hello” now".data :=
  C6_curly_quotes_amended "say “hello” now".data '“' (by decide)

/-! ### Every paragraph groups at most three sentences (C10) -/

/-- Structure of the composer's output: every produced paragraph either was
already closed, or is the space-join of a non-empty group of at most three
sentences drawn from the accumulator and the remaining input.  The bound
holds because the accumulator-length check (`currentParagraph.length >= 3`)
is part of the break disjunction evaluated before each append. -/
theorem composeAux_paragraphs (ss : List (List Char)) :
    ∀ paras cur : List (List Char), cur.length ≤ 3 →
    ∀ p ∈ composeAux paras cur ss,
      p ∈ paras ∨ ∃ grp : List (List Char), grp ≠ [] ∧ grp.length ≤ 3 ∧
        (∀ x ∈ grp, x ∈ cur ∨ x ∈ ss) ∧ p = joinSep [' '] grp := by
  induction ss with
  | nil =>
    intro paras cur _ p hp
    exact Or.inl hp
  | cons s rest ih =>
    intro paras cur hcur p hp
    rw [composeAux] at hp
    by_cases hemp : (trimL s).isEmpty = true
    · rw [if_pos hemp] at hp
      rcases ih paras cur hcur p hp with h | ⟨grp, h1, h2, h3, h4⟩
      · exact Or.inl h
      · exact Or.inr ⟨grp, h1, h2,
          fun x hx => (h3 x hx).imp id (List.mem_cons_of_mem s), h4⟩
    · rw [if_neg hemp] at hp
      cases hbr : decide (shouldBreak cur s ∧ cur ≠ []) with
      | true =>
        have hcne : cur ≠ [] := (of_decide_eq_true hbr).2
        simp only [hbr, if_true, List.nil_append] at hp
        cases rest with
        | nil =>
          rcases List.mem_append.mp hp with hp' | hp'
          · rcases List.mem_append.mp hp' with hp'' | hp''
            · exact Or.inl hp''
            · exact Or.inr ⟨cur, hcne, hcur, fun x hx => Or.inl hx,
                List.mem_singleton.mp hp''⟩
          · refine Or.inr ⟨[s], by simp, by simp, ?_, List.mem_singleton.mp hp'⟩
            intro x hx
            rcases List.mem_singleton.mp hx with rfl
            exact Or.inr (List.mem_cons_self x _)
        | cons r rest' =>
          rcases ih (paras ++ [joinSep [' '] cur]) [s] (by simp) p hp with h | ⟨grp, h1, h2, h3, h4⟩
          · rcases List.mem_append.mp h with h' | h'
            · exact Or.inl h'
            · exact Or.inr ⟨cur, hcne, hcur, fun x hx => Or.inl hx,
                List.mem_singleton.mp h'⟩
          · refine Or.inr ⟨grp, h1, h2, fun x hx => Or.inr ?_, h4⟩
            rcases h3 x hx with hx' | hx'
            · rcases List.mem_singleton.mp hx' with rfl
              exact List.mem_cons_self x _
            · exact List.mem_cons_of_mem s hx' 
      | false =>
        have hc3 : (cur ++ [s]).length ≤ 3 := by
          rcases Decidable.not_and_iff_or_not.mp (of_decide_eq_false hbr) with hns | hce
          · have : ¬ 3 ≤ cur.length := fun h3 => hns (Or.inl h3)
            simp only [List.length_append, List.length_singleton]
            omega
          · rw [Decidable.not_not.mp hce]
            simp
        have hmem3 : ∀ x ∈ cur ++ [s], x ∈ cur ∨ x ∈ s :: rest := by
          intro x hx
          rcases List.mem_append.mp hx with hx' | hx'
          · exact Or.inl hx'
          · rcases List.mem_singleton.mp hx' with rfl
            exact Or.inr (List.mem_cons_self x _)
        simp only [hbr, Bool.false_eq_true, if_false] at hp
        cases rest with
        | nil =>
          rcases List.mem_append.mp hp with hp' | hp'
          · exact Or.inl hp'
          · rcases List.mem_singleton.mp hp' with rfl
            exact Or.inr ⟨cur ++ [s], by simp, hc3, hmem3, rfl⟩
        | cons r rest' =>
          rcases ih paras (cur ++ [s]) hc3 p hp with h | ⟨grp, h1, h2, h3, h4⟩
          · exact Or.inl h
          · refine Or.inr ⟨grp, h1, h2, fun x hx => ?_, h4⟩
            rcases h3 x hx with hx' | hx'
            · exact hmem3 x hx'
            · exact Or.inr (List.mem_cons_of_mem s hx')

/-- C10: every paragraph produced by the Paragraph Composer is the
space-join of a non-empty group of at most 3 input sentences: the
accumulator-length flush check runs before each append, so no paragraph
ever contains 4 or more sentences. -/
theorem C10_paragraph_at_most_three_sentences (ss : List (List Char))
    (p : List Char) (hp : p ∈ composeParagraphs ss) :
    ∃ grp : List (List Char), grp ≠ [] ∧ grp.length ≤ 3 ∧
      (∀ x ∈ grp, x ∈ ss) ∧ p = joinSep [' '] grp := by
  rcases composeAux_paragraphs ss [] [] (by simp) p hp with h | ⟨grp, h1, h2, h3, h4⟩
  · exact absurd h (List.not_mem_nil p)
  · exact ⟨grp, h1, h2,
      fun x hx => (h3 x hx).resolve_left (List.not_mem_nil x), h4⟩

/-- Witness for C10 at a concrete five-sentence input whose first paragraph
closes at three sentences. -/
theorem C10_paragraph_at_most_three_sentences_witness :
    ∃ grp : List (List Char), grp ≠ [] ∧ grp.length ≤ 3 ∧
      (∀ x ∈ grp, x ∈
        ["The first sentence is rather long indeed.".data,
         "The second sentence is also quite long here.".data,
         "The third one keeps the paragraph going on.".data,
         "The fourth sentence starts a fresh paragraph.".data]) ∧
      ("The first sentence is rather long indeed. " ++
       "The second sentence is also quite long here. " ++
       "The third one keeps the paragraph going on.").data = joinSep [' '] grp :=
  C10_paragraph_at_most_three_sentences _ _ (by decide)

/-! ### Paragraph structure of the final document (C4) -/

/-- Structure of any `cleanTextLocally` output: it is the blank-line join
of a list of paragraphs, each non-empty and containing no newline (so that
consecutive paragraphs are separated by exactly the two-character
separator). -/
theorem cleanTextLocally_paragraphs (t : List Char) :
    ∃ ps : List (List Char), cleanTextLocally t = joinSep ['\n', '\n'] ps ∧
      ∀ p ∈ ps, p ≠ [] ∧ '\n' ∉ p := by
  refine ⟨((composeParagraphs (processedSentences (normalizeText t))).filter
      (fun p => !(trimL p).isEmpty)).map trimL, rfl, ?_⟩
  intro p hp
  rw [List.mem_map] at hp
  obtain ⟨q, hq, rfl⟩ := hp
  rw [List.mem_filter] at hq
  obtain ⟨hqmem, hqne⟩ := hq
  constructor
  · intro hnil
    rw [hnil] at hqne
    simp at hqne
  · intro hnl
    have hq' : '\n' ∈ q := mem_trimL hnl
    rcases composeAux_paragraphs _ [] [] (by simp) q hqmem with h | ⟨grp, _, _, hsub, rfl⟩
    · exact absurd h (List.not_mem_nil q)
    · rcases mem_joinSep grp hq' with hsep | ⟨x, hx, hcx⟩
      · simp at hsep
      · have hs2 : x ∈ processedSentences (normalizeText t) :=
          (hsub x hx).resolve_left (List.not_mem_nil x)
        rw [processedSentences, List.mem_map] at hs2
        obtain ⟨raw, _, rfl⟩ := hs2
        rcases processSentence_chars hcx with h1 | h1
        · exact absurd h1 (by decide)
        · exact absurd h1 (by decide)

/-- C4: for every input word list, the final document is the blank-line
join of non-empty, newline-free paragraphs: no paragraph is the empty
string and consecutive paragraphs are separated by exactly one blank line
(the two-character separator). -/
theorem C4_no_empty_paragraphs (bs : List TextBlock) :
    ∃ ps : List (List Char),
      cleanTextLocally (combinedText (processedBlocks bs)) = joinSep ['\n', '\n'] ps ∧
      ∀ p ∈ ps, p ≠ [] ∧ '\n' ∉ p :=
  cleanTextLocally_paragraphs (combinedText (processedBlocks bs))

/-- Witness for C3 at a concrete four-sentence input exercising a length
flush, a short-sentence flush and the final flush. -/
theorem C3_composer_flush_behaviour_witness :
    composeParagraphs
      ["The first sentence is rather long indeed.".data,
       "The second sentence is also quite long here.".data,
       "The third one keeps the paragraph going on.".data,
       "Tiny one.".data] =
    composeSpec
      ["The first sentence is rather long indeed.".data,
       "The second sentence is also quite long here.".data,
       "The third one keeps the paragraph going on.".data,
       "Tiny one.".data] :=
  C3_composer_flush_behaviour _ (by decide)

end STA
